import Mathlib

/-!
Verification of the token-generation core of `mlx_lm/utils.py`
(a fork of mlx-examples' LLM driver with a custom truncation sampler).

The embedding models the Python functions `sample` (nested in
`generate_step`), `generate_step`, `generate`, `_get_classes` and `load`.

Modelling conventions:
* Machine floats are modelled as rationals `ℚ` (exact field arithmetic).
* `mx.softmax` computes `exp x / Σ exp x`.  The transcendental `exp` is
  embedded as an explicit parameter `e : ℚ → ℚ`; every theorem that needs
  facts about it assumes only the properties the real exponential has
  (strict monotonicity, positivity).  `expQ` is a concrete computable
  stand-in with those properties, used to instantiate witnesses.
* NumPy indexing out of range raises `IndexError`; fallible computations
  therefore return `Option`/`Except`, with `none`/`.error` meaning the
  Python code raises.
* The two RNG reseeding lines (`random.seed`, `mx.random.seed`) and the
  categorical draw `mx.random.categorical(accepted_logits)` are abstracted
  into a parameter `draw : List ℚ → ℕ`: given the accepted score vector it
  yields the drawn position.  A real categorical draw always lands in
  `[0, length)`; theorems that need this assume it.
-/

/-- Computable stand-in for the exponential: strictly monotone and
positive on `ℚ`, used to instantiate witnesses. -/
def expQ (x : ℚ) : ℚ := if 0 ≤ x then x + 1 else 1 / (1 - x)

theorem expQ_pos (x : ℚ) : 0 < expQ x := by
  unfold expQ
  split
  · linarith
  · have h1 : (0:ℚ) < 1 - x := by linarith [not_le.mp (by assumption)]
    positivity

theorem expQ_strictMono : StrictMono expQ := by
  intro x y hxy
  unfold expQ
  rcases le_or_lt 0 x with hx | hx
  · rw [if_pos hx, if_pos (le_of_lt (lt_of_le_of_lt hx hxy))]
    linarith
  · rw [if_neg (not_le.mpr hx)]
    rcases le_or_lt 0 y with hy | hy
    · rw [if_pos hy]
      have h1 : (1:ℚ) < 1 - x := by linarith
      have h2 : 1 / (1 - x) < 1 := by
        rw [div_lt_one (by linarith)]
        exact h1
      linarith
    · rw [if_neg (not_le.mpr hy)]
      have h1 : (0:ℚ) < 1 - y := by linarith
      have h2 : (1:ℚ) - y < 1 - x := by linarith
      exact one_div_lt_one_div_of_lt h1 h2

/-- Embeds `mx.softmax(logits)`: each entry becomes
`e x / (sum of e over the vector)`, `e` standing for the exponential. -/
def softmaxWith (e : ℚ → ℚ) (l : List ℚ) : List ℚ :=
  l.map (fun x => e x / (l.map e).sum)

/-- The comparison `np.argsort` sorts by: index `a` before index `b`
when the value at `a` is at most the value at `b`. -/
def rankLE (p : List ℚ) (a b : ℕ) : Prop := p.getD a 0 ≤ p.getD b 0

instance (p : List ℚ) : DecidableRel (rankLE p) :=
  fun a b => inferInstanceAs (Decidable (p.getD a 0 ≤ p.getD b 0))

instance (p : List ℚ) : IsTotal ℕ (rankLE p) := ⟨fun _ _ => le_total _ _⟩

instance (p : List ℚ) : IsTrans ℕ (rankLE p) := ⟨fun _ _ _ h h2 => le_trans h h2⟩

/-- Embeds `sorted_indices = np.argsort(np_logits)` followed by
`sorted_indices = sorted_indices[::-1]`: the vocabulary indices sorted by
probability, descending.  (`np.argsort`'s tie order is unspecified; the
claims checked here do not depend on it.) -/
def sortedIndicesDesc (p : List ℚ) : List ℕ :=
  (List.insertionSort (rankLE p) (List.range p.length)).reverse

/-- Embeds the cutoff-widening loop
`while 1 - (np_logits[sorted_indices[j]] / t0) < cutoff and j < len(np_logits): j += 1`.
Python evaluates `np_logits[sorted_indices[j]]` BEFORE the guard
`j < len(np_logits)`, so the subscript `sorted_indices[j]` is taken first:
if `j` is out of range for `sorted_indices` the loop raises `IndexError`
(`none`).  The `fuel` argument makes the recursion structural; callers
pass `p.length`, which is enough fuel for every reachable state
(`fuel + j = p.length + 1` is invariant from the call site). -/
def widenFuel (p : List ℚ) (s : List ℕ) (t0 cutoff : ℚ) : ℕ → ℕ → Option ℕ
  | 0, _ => none
  | fuel + 1, j =>
    match s.get? j with
    | none => none
    | some sj =>
      if 1 - p.getD sj 0 / t0 < cutoff ∧ j < p.length then
        widenFuel p s t0 cutoff fuel (j + 1)
      else
        some j

/-- Embeds `t0 = np_logits[sorted_indices[0]]`: probability of the top-ranked
token. -/
def topProb (p : List ℚ) : ℚ := p.getD ((sortedIndicesDesc p).getD 0 0) 0

/-- The widening loop as run by `sample`, from `j = 1`. -/
def widenLoop (p : List ℚ) (cutoff : ℚ) : Option ℕ :=
  widenFuel p (sortedIndicesDesc p) (topProb p) cutoff p.length 1

/-- Embeds `for i in range(0,j): accepted_logits.append(float(np_logits[sorted_indices[j]]))`:
note the body uses `j`, not `i` — every slot receives the probability at
the final boundary rank `j`. -/
def acceptedLogits (p : List ℚ) (j : ℕ) : List ℚ :=
  (List.range j).map (fun _i => p.getD ((sortedIndicesDesc p).getD j 0) 0)

/-- Embeds the body of `sample` after the softmax: `np_logits` is the
flattened probability vector.  Steps: rank indices descending; read
`t0`; run the widening loop; build `accepted_logits`; draw a position
`idx` from the categorical over `accepted_logits`; return
`(t0, mx.array([sorted_indices[idx]]))` — note the token comes back as a
ONE-ELEMENT array. -/
def sampleCore (p : List ℚ) (cutoff : ℚ) (draw : List ℚ → ℕ) : Option (ℚ × List ℕ) :=
  let sorted := sortedIndicesDesc p
  match sorted.get? 0 with
  | none => none
  | some i0 =>
    let t0 := p.getD i0 0
    match widenFuel p sorted t0 cutoff p.length 1 with
    | none => none
    | some j =>
      let accepted := acceptedLogits p j
      match sorted.get? (draw accepted) with
      | none => none
      | some c => some (t0, [c])

/-- Embeds the whole of `sample`: softmax the logits, then `sampleCore`. -/
def sampleWith (e : ℚ → ℚ) (logits : List ℚ) (cutoff : ℚ) (draw : List ℚ → ℕ) :
    Option (ℚ × List ℕ) :=
  sampleCore (softmaxWith e logits) cutoff draw

/-- A concrete draw function (always picks position 0), standing in for
one possible outcome of `mx.random.categorical`. -/
def dZero : List ℚ → ℕ := fun _ => 0

theorem sortedIndicesDesc_perm (p : List ℚ) :
    (sortedIndicesDesc p).Perm (List.range p.length) :=
  (List.reverse_perm _).trans (List.perm_insertionSort _ _)

theorem length_sortedIndicesDesc (p : List ℚ) :
    (sortedIndicesDesc p).length = p.length := by
  rw [(sortedIndicesDesc_perm p).length_eq, List.length_range]

theorem mem_sortedIndicesDesc (p : List ℚ) (i : ℕ) :
    i ∈ sortedIndicesDesc p ↔ i < p.length := by
  rw [(sortedIndicesDesc_perm p).mem_iff, List.mem_range]

theorem sortedIndicesDesc_pairwise (p : List ℚ) :
    (sortedIndicesDesc p).Pairwise (fun a b => p.getD b 0 ≤ p.getD a 0) := by
  have h := List.sorted_insertionSort (rankLE p) (List.range p.length)
  rw [sortedIndicesDesc, List.pairwise_reverse]
  exact h

theorem getD_mem_of_lt {α : Type} (l : List α) (n : ℕ) (d : α) (h : n < l.length) :
    l.getD n d ∈ l := by
  rw [List.getD_eq_getElem l d h]
  exact List.getElem_mem h

/-- The head of the descending rank ordering carries a maximal
probability: `t0` dominates every entry of `p`. -/
theorem le_topProb (p : List ℚ) (i : ℕ) (hi : i < p.length) :
    p.getD i 0 ≤ topProb p := by
  have hmem : i ∈ sortedIndicesDesc p := (mem_sortedIndicesDesc p i).mpr hi
  have hpw := sortedIndicesDesc_pairwise p
  rw [topProb]
  cases hs : sortedIndicesDesc p with
  | nil => rw [hs] at hmem; cases hmem
  | cons a t =>
    rw [hs] at hmem hpw
    rw [List.getD_cons_zero]
    rcases List.mem_cons.mp hmem with h | h
    · subst h; exact le_refl _
    · exact (List.pairwise_cons.mp hpw).1 i h

/-- Every member of the rank ordering also sits below `t0`. -/
theorem getD_le_topProb_of_mem (p : List ℚ) (i : ℕ) (hmem : i ∈ sortedIndicesDesc p) :
    p.getD i 0 ≤ topProb p :=
  le_topProb p i ((mem_sortedIndicesDesc p i).mp hmem)

theorem softmaxWith_length (e : ℚ → ℚ) (l : List ℚ) :
    (softmaxWith e l).length = l.length := by
  simp [softmaxWith]

theorem mapE_sum_pos (e : ℚ → ℚ) (l : List ℚ) (he : ∀ x, 0 < e x) (hl : l ≠ []) :
    0 < (l.map e).sum := by
  apply List.sum_pos
  · intro y hy
    rcases List.mem_map.mp hy with ⟨z, _, hz⟩
    rw [← hz]; exact he z
  · simpa using hl

/-- Softmax output entries are positive (the exponential being positive). -/
theorem softmaxWith_mem_pos (e : ℚ → ℚ) (l : List ℚ) (he : ∀ x, 0 < e x)
    (hl : l ≠ []) : ∀ q ∈ softmaxWith e l, 0 < q := by
  intro q hq
  rcases List.mem_map.mp hq with ⟨x, _, hx⟩
  rw [← hx]
  exact div_pos (he x) (mapE_sum_pos e l he hl)

theorem topProb_pos (p : List ℚ) (hlen : 0 < p.length) (hpos : ∀ q ∈ p, 0 < q) :
    0 < topProb p := by
  have hslen := length_sortedIndicesDesc p
  have hmem0 : (sortedIndicesDesc p).getD 0 0 ∈ sortedIndicesDesc p :=
    getD_mem_of_lt _ 0 0 (by omega)
  exact hpos _ (getD_mem_of_lt p _ 0 ((mem_sortedIndicesDesc p _).mp hmem0))

theorem softmaxWith_getD (e : ℚ → ℚ) (l : List ℚ) (i : ℕ) (hi : i < l.length) :
    (softmaxWith e l).getD i 0 = e (l.getD i 0) / (l.map e).sum := by
  rw [softmaxWith, List.getD_eq_getD_get?, List.get?_map, List.get?_eq_get hi,
    List.getD_eq_getElem l 0 hi]
  rfl

/-- Softmax preserves the relative order of the logits: comparing two
softmax probabilities is the same as comparing the two logits. -/
theorem softmaxWith_getD_le_iff (e : ℚ → ℚ) (l : List ℚ) (hmono : StrictMono e)
    (he : ∀ x, 0 < e x) (hl : l ≠ []) (i k : ℕ) (hi : i < l.length)
    (hk : k < l.length) :
    (softmaxWith e l).getD i 0 ≤ (softmaxWith e l).getD k 0 ↔
      l.getD i 0 ≤ l.getD k 0 := by
  rw [softmaxWith_getD e l i hi, softmaxWith_getD e l k hk,
    div_le_div_iff_of_pos_right (mapE_sum_pos e l he hl)]
  exact hmono.le_iff_le

/-- With cutoff `0` the loop condition is false at its very first
evaluation (`j = 1`): `1 - p[s[1]]/t0 < 0` would require a probability
strictly above the maximum `t0`.  The loop performs no widening and
returns `j = 1` — provided the vocabulary has at least 2 entries, so
that the read `sorted_indices[1]` does not raise. -/
theorem widenFuel_cutoff_zero (p : List ℚ) (hlen : 2 ≤ p.length)
    (hpos : ∀ q ∈ p, 0 < q) :
    widenFuel p (sortedIndicesDesc p) (topProb p) 0 p.length 1 = some 1 := by
  have hslen : (sortedIndicesDesc p).length = p.length := length_sortedIndicesDesc p
  have h1 : 1 < (sortedIndicesDesc p).length := by omega
  have hget : (sortedIndicesDesc p).get? 1 =
      some ((sortedIndicesDesc p).get ⟨1, h1⟩) := List.get?_eq_get h1
  have hs1mem : (sortedIndicesDesc p).get ⟨1, h1⟩ ∈ sortedIndicesDesc p :=
    List.get_mem _ 1 h1
  have hs1lt : (sortedIndicesDesc p).get ⟨1, h1⟩ < p.length :=
    (mem_sortedIndicesDesc p _).mp hs1mem
  have hle : p.getD ((sortedIndicesDesc p).get ⟨1, h1⟩) 0 ≤ topProb p :=
    le_topProb p _ hs1lt
  have ht0 : 0 < topProb p := topProb_pos p (by omega) hpos
  have hcond : ¬ (1 - p.getD ((sortedIndicesDesc p).get ⟨1, h1⟩) 0 / topProb p < 0 ∧
      1 < p.length) := by
    intro hand
    have hr : p.getD ((sortedIndicesDesc p).get ⟨1, h1⟩) 0 / topProb p ≤ 1 :=
      (div_le_one ht0).mpr hle
    have := hand.1
    linarith
  cases hpl : p.length with
  | zero => omega
  | succ f =>
    simp only [widenFuel, hget]
    rw [if_neg hcond]

/-- If the widening loop returns normally with boundary rank `j`, then
`j` is still inside the rank ordering (the normal exit happens at a rank
whose subscript succeeded). -/
theorem widenFuel_some_lt (p : List ℚ) (s : List ℕ) (t0 cutoff : ℚ) :
    ∀ fuel j0 j, widenFuel p s t0 cutoff fuel j0 = some j → j < s.length := by
  intro fuel
  induction fuel with
  | zero =>
    intro j0 j h
    exact Option.noConfusion h
  | succ n ih =>
    intro j0 j h
    cases hget : s.get? j0 with
    | none =>
      simp only [widenFuel, hget] at h
      exact Option.noConfusion h
    | some sj =>
      simp only [widenFuel, hget] at h
      by_cases hc : 1 - p.getD sj 0 / t0 < cutoff ∧ j0 < p.length
      · rw [if_pos hc] at h
        exact ih (j0 + 1) j h
      · rw [if_neg hc] at h
        cases h
        exact (List.get?_eq_some.mp hget).1

/-- Behavior of `sample` at cutoff `0` on a vocabulary of at least two entries: no
widening, and the returned token is the head of the descending rank
ordering, with top score `t0`. -/
theorem sampleCore_cutoff_zero (p : List ℚ) (draw : List ℚ → ℕ)
    (hlen : 2 ≤ p.length) (hpos : ∀ q ∈ p, 0 < q)
    (hdraw : ∀ acc, acc ≠ [] → draw acc < acc.length) :
    ∃ c, sampleCore p 0 draw = some (topProb p, [c]) ∧
      (sortedIndicesDesc p).get? 0 = some c := by
  have hslen : (sortedIndicesDesc p).length = p.length := length_sortedIndicesDesc p
  have h0lt : 0 < (sortedIndicesDesc p).length := by omega
  have h0 : (sortedIndicesDesc p).get? 0 =
      some ((sortedIndicesDesc p).get ⟨0, h0lt⟩) := List.get?_eq_get h0lt
  have hidx : (sortedIndicesDesc p).getD 0 0 = (sortedIndicesDesc p).get ⟨0, h0lt⟩ := by
    rw [List.getD_eq_getD_get?, h0]
    rfl
  have ht0 : p.getD ((sortedIndicesDesc p).get ⟨0, h0lt⟩) 0 = topProb p := by
    rw [topProb, hidx]
  have hw : widenFuel p (sortedIndicesDesc p) (topProb p) 0 p.length 1 = some 1 :=
    widenFuel_cutoff_zero p hlen hpos
  have hacc_len : (acceptedLogits p 1).length = 1 := by simp [acceptedLogits]
  have hacc_ne : acceptedLogits p 1 ≠ [] := by
    intro hnil
    rw [hnil] at hacc_len
    simp at hacc_len
  have hdraw1 : draw (acceptedLogits p 1) = 0 := by
    have hlt := hdraw _ hacc_ne
    omega
  refine ⟨(sortedIndicesDesc p).get ⟨0, h0lt⟩, ?_, h0⟩
  rw [sampleCore]
  simp only [h0, hw, hdraw1, ht0]

/-- Claim C6 counterexample. -- The claim quantifies over every logits
vector; on the 1-entry vector `[1]` with cutoff `0` the code raises
`IndexError` (the widening-loop condition reads `sorted_indices[1]`)
instead of returning the top-ranked index `0`. -/
theorem cutoff_zero_fails_on_vocab_one :
    sampleWith expQ [1] 0 dZero = none := rfl

/-- If the ratio `p[s[j]] / t0` is positive at every in-range rank and the
cutoff is at least `1`, the loop condition never turns false, so the loop
walks `j` to the end of the rank ordering and then raises `IndexError`
reading `sorted_indices[j]`. -/
theorem widenFuel_none_of_big_cutoff (p : List ℚ) (s : List ℕ) (t0 cutoff : ℚ)
    (hpos : ∀ i ∈ s, 0 < p.getD i 0) (ht0 : 0 < t0) (hcut : 1 ≤ cutoff)
    (hsl : s.length = p.length) :
    ∀ fuel j, j + fuel = s.length + 1 →
      widenFuel p s t0 cutoff fuel j = none := by
  intro fuel
  induction fuel with
  | zero => intro j _; rfl
  | succ n ih =>
    intro j hj
    cases hget : s.get? j with
    | none => simp only [widenFuel, hget]
    | some sj =>
      have hjlen : j < s.length := by
        rcases List.get?_eq_some.mp hget with ⟨h, _⟩
        exact h
      have hsj : sj ∈ s := List.get?_mem hget
      have hratio : 0 < p.getD sj 0 / t0 := div_pos (hpos sj hsj) ht0
      have hcond : 1 - p.getD sj 0 / t0 < cutoff ∧ j < p.length := by
        constructor
        · linarith
        · rw [← hsl]; exact hjlen
      simp only [widenFuel, hget]
      rw [if_pos hcond]
      exact ih (j + 1) (by omega)

/-- When the widening loop raises, so does `sample`. -/
theorem sampleCore_eq_none (p : List ℚ) (cutoff : ℚ) (draw : List ℚ → ℕ)
    (hw : widenFuel p (sortedIndicesDesc p) (topProb p) cutoff p.length 1 = none) :
    sampleCore p cutoff draw = none := by
  rw [sampleCore]
  cases h0 : (sortedIndicesDesc p).get? 0 with
  | none => rfl
  | some i0 =>
    simp only [h0]
    have hidx : (sortedIndicesDesc p).getD 0 0 = i0 := by
      rw [List.getD_eq_getD_get?, h0]
      rfl
    have ht0 : p.getD i0 0 = topProb p := by rw [topProb, hidx]
    rw [ht0, hw]

/-- Claim C5. -- With any cutoff `≥ 1` (in particular `1e9`, and any value at
or above the maximum possible relative drop) the widening loop does NOT
stop at the vocabulary boundary: the guard `j < len(np_logits)` is
checked only after `np_logits[sorted_indices[j]]` has been evaluated, so
when `j` reaches the vocabulary size the subscript raises `IndexError`.
The sampler raises for every logits vector instead of widening the
accepted set to the whole vocabulary. -/
theorem sample_large_cutoff_index_error (e : ℚ → ℚ) (l : List ℚ) (cutoff : ℚ)
    (draw : List ℚ → ℕ) (he : ∀ x, 0 < e x) (hcut : 1 ≤ cutoff) :
    sampleWith e l cutoff draw = none := by
  rcases eq_or_ne l [] with hl | hl
  · subst hl; rfl
  · rw [sampleWith]
    set p := softmaxWith e l with hp
    have hplen : p.length = l.length := softmaxWith_length e l
    have hppos : ∀ q ∈ p, 0 < q := softmaxWith_mem_pos e l he hl
    have hlen0 : 0 < p.length := by
      rw [hplen, List.length_pos]
      exact hl
    have hslen : (sortedIndicesDesc p).length = p.length := length_sortedIndicesDesc p
    have hpos' : ∀ i ∈ sortedIndicesDesc p, 0 < p.getD i 0 := by
      intro i hi
      exact hppos _ (getD_mem_of_lt p i 0 ((mem_sortedIndicesDesc p i).mp hi))
    have hmem0 : (sortedIndicesDesc p).getD 0 0 ∈ sortedIndicesDesc p :=
      getD_mem_of_lt _ 0 0 (by omega)
    have ht0 : 0 < topProb p :=
      hppos _ (getD_mem_of_lt p _ 0 ((mem_sortedIndicesDesc p _).mp hmem0))
    exact sampleCore_eq_none p cutoff draw
      (widenFuel_none_of_big_cutoff p (sortedIndicesDesc p) (topProb p) cutoff
        hpos' ht0 hcut hslen p.length 1 (by omega))

/-- Claim C5 witness. -- Concrete failing input: logits `[0, 0]` (vocabulary
size 2) with cutoff `10^9`. -/
theorem sample_large_cutoff_index_error_witness :
    sampleWith expQ [0, 0] (10 ^ 9) dZero = none :=
  sample_large_cutoff_index_error expQ [0, 0] (10 ^ 9) dZero expQ_pos (by norm_num)

/-- Claim C6 (amended). -- For every logits vector with at least two entries,
cutoff `0` performs no widening (the boundary rank stays `j = 1`) and
the sampler returns the top-ranked index — an argmax of the logits; in
particular the spec's example logits `[1/10, 5, 1/5]` (0.1, 5.0, 0.2 as
exact rationals) with cutoff `0` always return index `1`.  The original
claim's "every logits vector" fails on 1-entry vectors, where the code
raises instead (see the counterexample). -/
theorem cutoff_zero_returns_argmax_of_two_or_more :
    (∀ (e : ℚ → ℚ) (l : List ℚ) (draw : List ℚ → ℕ),
      StrictMono e → (∀ x, 0 < e x) → 2 ≤ l.length →
      (∀ acc, acc ≠ [] → draw acc < acc.length) →
      widenLoop (softmaxWith e l) 0 = some 1 ∧
      ∃ c, sampleWith e l 0 draw = some (topProb (softmaxWith e l), [c]) ∧
        (sortedIndicesDesc (softmaxWith e l)).get? 0 = some c ∧
        ∀ i, i < l.length → l.getD i 0 ≤ l.getD c 0) ∧
    sampleWith expQ [1/10, 5, 1/5] 0 dZero = some (60/83, [1]) := by
  constructor
  · intro e l draw hmono he hlen hdraw
    have hl : l ≠ [] := by
      intro h
      rw [h] at hlen
      simp at hlen
    have hppos := softmaxWith_mem_pos e l he hl
    have hplen : (softmaxWith e l).length = l.length := softmaxWith_length e l
    have hplen2 : 2 ≤ (softmaxWith e l).length := by omega
    constructor
    · exact widenFuel_cutoff_zero (softmaxWith e l) hplen2 hppos
    · obtain ⟨c, hs, hc⟩ := sampleCore_cutoff_zero (softmaxWith e l) draw hplen2 hppos hdraw
      refine ⟨c, hs, hc, ?_⟩
      intro i hi
      have hcmem : c ∈ sortedIndicesDesc (softmaxWith e l) := List.get?_mem hc
      have hclt : c < l.length := by
        have := (mem_sortedIndicesDesc _ c).mp hcmem
        omega
      have h2 : topProb (softmaxWith e l) = (softmaxWith e l).getD c 0 := by
        rw [topProb]
        congr 1
        rw [List.getD_eq_getD_get?, hc]
        rfl
      have hptop : (softmaxWith e l).getD i 0 ≤ (softmaxWith e l).getD c 0 := by
        have h1 : (softmaxWith e l).getD i 0 ≤ topProb (softmaxWith e l) :=
          le_topProb _ i (by omega)
        rw [h2] at h1
        exact h1
      exact (softmaxWith_getD_le_iff e l hmono he hl i c hi hclt).mp hptop
  · have hsm : softmaxWith expQ [1/10, 5, 1/5] = [11/83, 60/83, 12/83] := by
      norm_num [softmaxWith, expQ]
    have hsort : sortedIndicesDesc [(11:ℚ)/83, 60/83, 12/83] = [1, 2, 0] := by
      norm_num [sortedIndicesDesc, List.insertionSort, List.orderedInsert, rankLE,
        List.range_succ]
    rw [sampleWith, hsm]
    norm_num [sampleCore, hsort, widenFuel, acceptedLogits, dZero]

/-- Claim C6 witness. -- The amended theorem applied at the concrete logits
`[3, 1]`: no widening at cutoff `0`. -/
theorem cutoff_zero_returns_argmax_witness :
    widenLoop (softmaxWith expQ [3, 1]) 0 = some 1 :=
  (cutoff_zero_returns_argmax_of_two_or_more.1 expQ [3, 1] dZero expQ_strictMono
    expQ_pos (by decide) (fun _ h => List.length_pos.mpr h)).1

/-- Claim C7. -- Whenever the widening loop stops normally at boundary rank
`j`, the accepted score vector has exactly `j` entries, every one equal
to the softmax probability of the rank-`j` token (the boundary rank, not
rank `i`), and the categorical draw is taken over that vector: the
sampler returns the rank-ordering entry at the drawn position, paired
with the top probability `t0`. -/
theorem accepted_vector_constant_boundary_prob (e : ℚ → ℚ) (l : List ℚ)
    (cutoff : ℚ) (draw : List ℚ → ℕ) (j : ℕ)
    (hw : widenLoop (softmaxWith e l) cutoff = some j) :
    acceptedLogits (softmaxWith e l) j =
      List.replicate j
        ((softmaxWith e l).getD ((sortedIndicesDesc (softmaxWith e l)).getD j 0) 0) ∧
    (acceptedLogits (softmaxWith e l) j).length = j ∧
    sampleWith e l cutoff draw =
      ((sortedIndicesDesc (softmaxWith e l)).get?
          (draw (acceptedLogits (softmaxWith e l) j))).map
        (fun c => (topProb (softmaxWith e l), [c])) := by
  refine ⟨?_, by simp [acceptedLogits], ?_⟩
  · rw [acceptedLogits]
    apply List.eq_replicate_iff.mpr
    constructor
    · simp
    · intro b hb
      rcases List.mem_map.mp hb with ⟨i, _, hi⟩
      exact hi.symm
  · set p := softmaxWith e l with hp
    rw [widenLoop] at hw
    have hjlt : j < (sortedIndicesDesc p).length :=
      widenFuel_some_lt p (sortedIndicesDesc p) (topProb p) cutoff p.length 1 j hw
    have h0lt : 0 < (sortedIndicesDesc p).length := by omega
    have h0 : (sortedIndicesDesc p).get? 0 =
        some ((sortedIndicesDesc p).get ⟨0, h0lt⟩) := List.get?_eq_get h0lt
    have hidx : (sortedIndicesDesc p).getD 0 0 = (sortedIndicesDesc p).get ⟨0, h0lt⟩ := by
      rw [List.getD_eq_getD_get?, h0]
      rfl
    have ht0 : p.getD ((sortedIndicesDesc p).get ⟨0, h0lt⟩) 0 = topProb p := by
      rw [topProb, hidx]
    rw [sampleWith, sampleCore]
    simp only [h0, ht0, hw]
    cases hc : (sortedIndicesDesc p).get? (draw (acceptedLogits p j)) with
    | none => rfl
    | some c => rfl

/-- Claim C7 witness. -- Concrete run: logits `[2, 1, -1]` with cutoff `1/2`
stop the widening loop at boundary rank `j = 2`. -/
theorem accepted_vector_constant_boundary_prob_witness :
    acceptedLogits (softmaxWith expQ [2, 1, -1]) 2 =
      List.replicate 2
        ((softmaxWith expQ [2, 1, -1]).getD
          ((sortedIndicesDesc (softmaxWith expQ [2, 1, -1])).getD 2 0) 0) ∧
    (acceptedLogits (softmaxWith expQ [2, 1, -1]) 2).length = 2 ∧
    sampleWith expQ [2, 1, -1] (1/2) dZero =
      ((sortedIndicesDesc (softmaxWith expQ [2, 1, -1])).get?
          (dZero (acceptedLogits (softmaxWith expQ [2, 1, -1]) 2))).map
        (fun c => (topProb (softmaxWith expQ [2, 1, -1]), [c])) :=
  accepted_vector_constant_boundary_prob expQ [2, 1, -1] (1/2) dZero 2 (by
    have hsm : softmaxWith expQ [2, 1, -1] = [6/11, 4/11, 1/11] := by
      norm_num [softmaxWith, expQ]
    have hsort : sortedIndicesDesc [(6:ℚ)/11, 4/11, 1/11] = [0, 1, 2] := by
      norm_num [sortedIndicesDesc, List.insertionSort, List.orderedInsert, rankLE,
        List.range_succ]
    rw [widenLoop, hsm]
    norm_num [hsort, topProb, widenFuel])

/-- Claim C4. -- On a vocabulary of size 1 the code always raises: the first
evaluation of the loop condition reads `sorted_indices[1]`, out of range
for the 1-element rank ordering, before the guard `j < len(np_logits)`
is consulted.  No widening happens, no index is returned: `IndexError`. -/
theorem sample_vocab_one_index_error (e : ℚ → ℚ) (x cutoff : ℚ) (draw : List ℚ → ℕ) :
    sampleWith e [x] cutoff draw = none := rfl

/-- Claim C1. -- Evaluating the code at the failing input: logits `[0.0]`
(vocabulary size 1) with cutoff `7.0` (the `generate_step` default).  The
sampler raises `IndexError` instead of returning the only valid index
`0`; the claimed safety property (always an in-range index, never an
out-of-range read) fails. -/
theorem sampler_raises_instead_of_valid_index :
    sampleWith expQ [0] 7 dZero = none := rfl

/-- The Model adapter: given the token array fed this step (the batch
dimension of `y[None]` is dropped) and the current cache, returns
per-position logits and the new cache —
`logits, cache = model(y[None], cache=cache)`. -/
structure PyModel (C : Type) where
  run : List ℕ → Option C → List (List ℚ) × C

/-- The loop state of `generate_step`: the array `y` that will be fed to
the model next, and the cache. -/
structure GenState (C : Type) where
  y : List ℕ
  cache : Option C
deriving DecidableEq

/-- One iteration of `generate_step`'s `while True` loop: call the model
on `y` and the cache, keep only the logits of the final position
(`logits[:, -1, :]`), sample, and REPLACE `y` by the returned 1-element
token array (the code assigns `t0, y = sample(logits)`, it does not
append).  Yields the pair `(t0, y)`. -/
def genStep {C : Type} (e : ℚ → ℚ) (m : PyModel C) (cutoff : ℚ)
    (draw : List ℚ → ℕ) (s : GenState C) :
    Option ((ℚ × List ℕ) × GenState C) :=
  let r := m.run s.y s.cache
  let logits := r.1.getLastD []
  match sampleWith e logits cutoff draw with
  | none => none
  | some (t0, y1) => some ((t0, y1), ⟨y1, some r.2⟩)

/-- The state of `generate_step` after `n` successful steps for a given
prompt (`y = prompt`, `cache = None` initially). -/
def genStates {C : Type} (e : ℚ → ℚ) (m : PyModel C) (cutoff : ℚ)
    (draw : List ℚ → ℕ) (prompt : List ℕ) : ℕ → Option (GenState C)
  | 0 => some ⟨prompt, none⟩
  | n + 1 =>
    match genStates e m cutoff draw prompt n with
    | none => none
    | some s =>
      match genStep e m cutoff draw s with
      | none => none
      | some (_, s1) => some s1

/-- All tokens sampled during steps `1..n`, in order (each step's
1-element token array appended). -/
def sampledTokens {C : Type} (e : ℚ → ℚ) (m : PyModel C) (cutoff : ℚ)
    (draw : List ℚ → ℕ) (prompt : List ℕ) : ℕ → Option (List ℕ)
  | 0 => some []
  | n + 1 =>
    match genStates e m cutoff draw prompt n with
    | none => none
    | some s =>
      match genStep e m cutoff draw s with
      | none => none
      | some ((_, ys), _) =>
        (sampledTokens e m cutoff draw prompt n).map (fun ts => ts ++ ys)

/-- The arrays fed to the model in steps `1..n`: step `k`'s input is the
`y` component of the state before step `k`. -/
def modelInputs {C : Type} (e : ℚ → ℚ) (m : PyModel C) (cutoff : ℚ)
    (draw : List ℚ → ℕ) (prompt : List ℕ) : ℕ → Option (List (List ℕ))
  | 0 => some []
  | n + 1 =>
    match genStates e m cutoff draw prompt n with
    | none => none
    | some s =>
      (modelInputs e m cutoff draw prompt n).map (fun ins => ins ++ [s.y])

/-- The Tokenizer adapter of the Driver. -/
structure Tokenizer where
  encode : String → List ℕ
  decode : List ℕ → String
  eos_token_id : ℕ

/-- The exceptions `generate` can die with. -/
inductive GenError where
  | indexErrorInSample
  | attributeErrorTupleItem
deriving DecidableEq

/-- Embeds the Python comparison `token == tokenizer.eos_token_id` in
`generate`, where `token` is bound to the TUPLE `(t0, y)` yielded by
`generate_step`: in CPython a tuple never compares equal to an `int`
(both `__eq__` sides return `NotImplemented` and the fallback comparison
is false for distinct objects), so this test is constantly false. -/
def pyTupleEqInt (_pair : ℚ × List ℕ) (_k : ℕ) : Bool := false

/-- Embeds `for token, _ in zip(generate_step(prompt, model, temp), range(max_tokens))`
with its body.  `zip` pulls from the generator FIRST and from
`range(max_tokens)` second, so one generation step runs (and is
discarded) even when the budget is exhausted.  The body binds the
yielded pair to `token`; `token == tokenizer.eos_token_id` is constantly
false (`pyTupleEqInt`), and the next statement
`tokens.append(token.item())` raises `AttributeError` — a tuple has no
`.item()` — so no iteration ever completes and the lines after it
(verbose printing, the next loop round with a grown `tokens` list) are
unreachable. -/
def generateLoop {C : Type} (e : ℚ → ℚ) (m : PyModel C) (cutoff : ℚ)
    (draw : List ℚ → ℕ) (eosId : ℕ) (s : GenState C) (tokens : List ℕ)
    (skip : ℕ) (maxTokens : ℕ) : Except GenError (List ℕ × ℕ) :=
  match genStep e m cutoff draw s with
  | none => .error .indexErrorInSample
  | some (pair, _s1) =>
    match maxTokens with
    | 0 => .ok (tokens, skip)
    | _ + 1 =>
      if pyTupleEqInt pair eosId then .ok (tokens, skip)
      else .error .attributeErrorTupleItem

/-- Embeds `generate(model, tokenizer, prompt, temp, max_tokens, verbose)`:
encode the prompt, run the consumption loop (which passes `temp` on to
`generate_step`'s cutoff position), then return
`tokenizer.decode(tokens)[skip:]`. -/
def generate {C : Type} (e : ℚ → ℚ) (m : PyModel C) (tokz : Tokenizer)
    (prompt : String) (temp : ℚ) (maxTokens : ℕ) (draw : List ℚ → ℕ) :
    Except GenError String :=
  match generateLoop e m temp draw tokz.eos_token_id
      ⟨tokz.encode prompt, none⟩ [] 0 maxTokens with
  | .error err => .error err
  | .ok (tokens, skip) => .ok ((tokz.decode tokens).drop skip)

/-- An independent rendering of the Driver that takes the sampler cutoff
as an explicitly named parameter; `generate` coincides with it at
`cutoff := temp` (claim C9). -/
def generateAtCutoff {C : Type} (e : ℚ → ℚ) (m : PyModel C) (tokz : Tokenizer)
    (prompt : String) (cutoff : ℚ) (maxTokens : ℕ) (draw : List ℚ → ℕ) :
    Except GenError String :=
  match generateLoop e m cutoff draw tokz.eos_token_id
      ⟨tokz.encode prompt, none⟩ [] 0 maxTokens with
  | .error err => .error err
  | .ok (tokens, skip) => .ok ((tokz.decode tokens).drop skip)

/-- From `generate_step(prompt, model, cutoff=7.0)`: the declared default of
the third parameter. -/
def generate_step_default_cutoff : ℚ := 7

/-- From `generate(..., temp=0.0, ...)`: the declared default of `temp`. -/
def generate_default_temp : ℚ := 0

/-- Stub model: always emits the logits row `[1, 0]` (vocabulary 2,
peak at token 0) whatever the input and cache. -/
def mA : PyModel Unit := ⟨fun _ _ => ([[1, 0]], ())⟩

/-- Stub tokenizer: every prompt encodes to `[72, 101]`, decoding gives
the empty string, eos id is `1`. -/
def tokH : Tokenizer := ⟨fun _ => [72, 101], fun _ => "", 1⟩

/-- A successful `sample` returns the token as a one-element array
(`mx.array(np.array([c]))`). -/
theorem sampleWith_shape (e : ℚ → ℚ) (l : List ℚ) (cutoff : ℚ)
    (draw : List ℚ → ℕ) (t0 : ℚ) (ys : List ℕ)
    (h : sampleWith e l cutoff draw = some (t0, ys)) : ∃ c, ys = [c] := by
  rw [sampleWith, sampleCore] at h
  cases h0 : (sortedIndicesDesc (softmaxWith e l)).get? 0 with
  | none =>
    simp only [h0] at h
    exact Option.noConfusion h
  | some i0 =>
    simp only [h0] at h
    cases hwf : widenFuel (softmaxWith e l) (sortedIndicesDesc (softmaxWith e l))
        ((softmaxWith e l).getD i0 0) cutoff (softmaxWith e l).length 1 with
    | none =>
      simp only [hwf] at h
      exact Option.noConfusion h
    | some j =>
      simp only [hwf] at h
      cases hcg : (sortedIndicesDesc (softmaxWith e l)).get?
          (draw (acceptedLogits (softmaxWith e l) j)) with
      | none =>
        simp only [hcg] at h
        exact Option.noConfusion h
      | some c =>
        simp only [hcg, Option.some.injEq, Prod.mk.injEq] at h
        exact ⟨c, h.2.symm⟩

/-- Inversion of one `generate_step` iteration: the yielded token array
is a singleton `[c]`, the next state feeds exactly `[c]` to the model,
and the cache is the one returned by this step's model call. -/
theorem genStep_inv {C : Type} (e : ℚ → ℚ) (m : PyModel C) (cutoff : ℚ)
    (draw : List ℚ → ℕ) (s : GenState C) (pr : ℚ × List ℕ) (s1 : GenState C)
    (h : genStep e m cutoff draw s = some (pr, s1)) :
    ∃ c : ℕ, pr.2 = [c] ∧ s1.y = [c] ∧ s1.cache = some (m.run s.y s.cache).2 ∧
      sampleWith e ((m.run s.y s.cache).1.getLastD []) cutoff draw =
        some (pr.1, pr.2) := by
  obtain ⟨prt, pry⟩ := pr
  obtain ⟨s1y, s1c⟩ := s1
  simp only [genStep] at h
  cases hs : sampleWith e ((m.run s.y s.cache).1.getLastD []) cutoff draw with
  | none =>
    simp only [hs] at h
    exact Option.noConfusion h
  | some ty =>
    obtain ⟨t0, ys⟩ := ty
    simp only [hs, Option.some.injEq, Prod.mk.injEq, GenState.mk.injEq] at h
    obtain ⟨⟨ht0, hys⟩, hy, hc⟩ := h
    obtain ⟨c, hcs⟩ := sampleWith_shape e _ cutoff draw t0 ys hs
    subst ht0
    subst hys
    subst hy
    subst hc
    refine ⟨c, hcs, hcs, rfl, ?_⟩
    simpa using hs

theorem join_map_singleton (l : List ℕ) : (l.map (fun t => [t])).join = l := by
  induction l with
  | nil => rfl
  | cons a t ih => simp [ih]

/-- Concrete sampler run used by the driver scenarios: logits `[1, 0]`,
cutoff `0`. -/
theorem sampleWith_mA_run : sampleWith expQ [1, 0] 0 dZero = some (2/3, [0]) := by
  have hsm : softmaxWith expQ [1, 0] = [2/3, 1/3] := by
    norm_num [softmaxWith, expQ]
  have hsort : sortedIndicesDesc [(2:ℚ)/3, 1/3] = [0, 1] := by
    norm_num [sortedIndicesDesc, List.insertionSort, List.orderedInsert, rankLE,
      List.range_succ]
  rw [sampleWith, hsm]
  norm_num [sampleCore, hsort, widenFuel, acceptedLogits, dZero]

/-- Same logits with cutoff `7` (the `generate_step` default): the
widening loop runs off the end of the 2-entry rank ordering and raises. -/
theorem sampleWith_mA_cutoff7 : sampleWith expQ [1, 0] 7 dZero = none := by
  have hsm : softmaxWith expQ [1, 0] = [2/3, 1/3] := by
    norm_num [softmaxWith, expQ]
  have hsort : sortedIndicesDesc [(2:ℚ)/3, 1/3] = [0, 1] := by
    norm_num [sortedIndicesDesc, List.insertionSort, List.orderedInsert, rankLE,
      List.range_succ]
  rw [sampleWith, hsm]
  norm_num [sampleCore, hsort, widenFuel, acceptedLogits, dZero]

theorem genStep_mA_run (s : GenState Unit) :
    genStep expQ mA 0 dZero s = some ((2/3, [0]), ⟨[0], some ()⟩) := by
  show (match sampleWith expQ [1, 0] 0 dZero with
    | none => none
    | some (t0, y1) => some ((t0, y1), (⟨y1, some ()⟩ : GenState Unit))) =
    some ((2/3, [0]), ⟨[0], some ()⟩)
  rw [sampleWith_mA_run]

theorem genStep_mA_cutoff7 (s : GenState Unit) :
    genStep expQ mA 7 dZero s = none := by
  show (match sampleWith expQ [1, 0] 7 dZero with
    | none => none
    | some (t0, y1) => some ((t0, y1), (⟨y1, some ()⟩ : GenState Unit))) = none
  rw [sampleWith_mA_cutoff7]

/-- Claim C2. -- Evaluating the Driver at the spec's scenario (prompt
`"Hello"`, a stub model, `max_tokens = 10`): `generate` raises
`AttributeError` in its first loop iteration — the loop variable is the
yielded `(score, token-array)` pair, never equal to the eos id, and
`.item()` on a tuple fails — so generation neither stops at an eos step
nor returns text. -/
theorem driver_crashes_before_eos_handling :
    generate expQ mA tokH ("Hello") 0 10 dZero = .error .attributeErrorTupleItem := by
  rw [generate]
  simp only [generateLoop, genStep_mA_run, pyTupleEqInt]
  rfl

/-- Claim C8. -- Whenever the Driver runs with `max_tokens ≥ 1` and the
generator produces its first value, the value bound in the Driver's loop
is the `(top-score, token-array)` pair: it never compares equal to the
integer eos id (`pyTupleEqInt` is constantly false), and the subsequent
`token.item()` raises, so `generate` dies with `AttributeError` on its
first iteration, before any text is accumulated. -/
theorem driver_binds_pair_and_crashes {C : Type} (e : ℚ → ℚ) (m : PyModel C)
    (tokz : Tokenizer) (prompt : String) (temp : ℚ) (draw : List ℚ → ℕ)
    (maxTokens : ℕ) (pair : ℚ × List ℕ) (s1 : GenState C)
    (hstep : genStep e m temp draw ⟨tokz.encode prompt, none⟩ = some (pair, s1))
    (hmax : 1 ≤ maxTokens) :
    pyTupleEqInt pair tokz.eos_token_id = false ∧
    generate e m tokz prompt temp maxTokens draw =
      .error .attributeErrorTupleItem := by
  refine ⟨rfl, ?_⟩
  obtain ⟨k, rfl⟩ : ∃ k, maxTokens = k + 1 := ⟨maxTokens - 1, by omega⟩
  rw [generate]
  simp only [generateLoop, hstep, pyTupleEqInt]
  rfl

/-- Claim C8 witness. -- Concrete instantiation: the stub model `mA`, stub
tokenizer, `temp = 0`, `max_tokens = 5`. -/
theorem driver_binds_pair_and_crashes_witness :
    pyTupleEqInt (2/3, [0]) tokH.eos_token_id = false ∧
    generate expQ mA tokH ("x") 0 5 dZero = .error .attributeErrorTupleItem :=
  driver_binds_pair_and_crashes expQ mA tokH ("x") 0 dZero 5 (2/3, [0])
    ⟨[0], some ()⟩ (genStep_mA_run _) (by omega)

/-- Claim C9. -- The Driver forwards `temp` positionally into
`generate_step`'s cutoff position: `generate` coincides with the
explicitly-cutoff-parameterised driver at `cutoff := temp`.  The
declared defaults are `temp = 0` and `generate_step`'s own `cutoff = 7`;
the latter is never used through the Driver — observably so: on the stub
model, `temp = 0` (default) reaches the loop-body error while a cutoff
of `7` would die earlier inside the sampler with a different error. -/
theorem driver_forwards_temp_as_cutoff :
    (∀ (C : Type) (e : ℚ → ℚ) (m : PyModel C) (tokz : Tokenizer)
      (prompt : String) (temp : ℚ) (maxTokens : ℕ) (draw : List ℚ → ℕ),
      generate e m tokz prompt temp maxTokens draw =
        generateAtCutoff e m tokz prompt temp maxTokens draw) ∧
    generate_default_temp = 0 ∧
    generate_step_default_cutoff = 7 ∧
    generate expQ mA tokH ("x") generate_default_temp 5 dZero =
      .error .attributeErrorTupleItem ∧
    generate expQ mA tokH ("x") generate_step_default_cutoff 5 dZero =
      .error .indexErrorInSample := by
  refine ⟨fun _ _ _ _ _ _ _ _ => rfl, rfl, rfl, ?_, ?_⟩
  · rw [generate]
    simp only [generate_default_temp, generateLoop, genStep_mA_run, pyTupleEqInt]
    rfl
  · rw [generate]
    simp only [generate_step_default_cutoff, generateLoop, genStep_mA_cutoff7]

/-- Claim C3 counterexample. -- With prompt `[5, 6]` and the stub model, the
state before step 2 feeds the model only `[0]` — the one-element array
holding step 1's sampled token — not the full current sequence
`[5, 6, 0]` of length `prompt length + 1` that the claim requires as the
step-2 model input. -/
theorem second_step_input_is_single_token :
    (genStates expQ mA 0 dZero [5, 6] 1).map GenState.y = some [0] ∧
    ([0] : List ℕ) ≠ [5, 6, 0] := by
  constructor
  · simp only [genStates, genStep_mA_run]
    rfl
  · decide

/-- Claim C3 (amended). -- Step 1's model input is the prompt; step `n+1`'s
model input is the ONE-ELEMENT array holding the token sampled at step
`n` (the code replaces `y` rather than appending, and the cache — always
the most recent model call's — carries the earlier context).  The
inputs of steps `1..n+1` concatenate to `prompt ++ (tokens sampled in
steps 1..n)`: every sampled token enters the effective sequence, in
order, exactly once, and the effective sequence seen by step `n+1` has
length `prompt length + (n+1) - 1`. -/
theorem generation_inputs_prompt_then_singletons {C : Type} (e : ℚ → ℚ)
    (m : PyModel C) (cutoff : ℚ) (draw : List ℚ → ℕ) (prompt : List ℕ) :
    ∀ n s, genStates e m cutoff draw prompt n = some s →
      ∃ toks, sampledTokens e m cutoff draw prompt n = some toks ∧
        toks.length = n ∧
        modelInputs e m cutoff draw prompt (n + 1) =
          some (prompt :: toks.map (fun t => [t])) ∧
        (prompt :: toks.map (fun t => [t])).join = prompt ++ toks ∧
        (prompt ++ toks).length = prompt.length + (n + 1) - 1 ∧
        ((n = 0 ∧ s.y = prompt) ∨ ∃ c, toks.getLast? = some c ∧ s.y = [c]) := by
  intro n
  induction n with
  | zero =>
    intro s hs
    simp only [genStates, Option.some.injEq] at hs
    refine ⟨[], rfl, rfl, rfl, by simp [join_map_singleton], by simp,
      Or.inl ⟨rfl, ?_⟩⟩
    rw [← hs]
  | succ n ih =>
    intro s hs
    cases hsp : genStates e m cutoff draw prompt n with
    | none =>
      simp only [genStates, hsp] at hs
      exact Option.noConfusion hs
    | some sp =>
      simp only [genStates, hsp] at hs
      cases hst : genStep e m cutoff draw sp with
      | none =>
        simp only [hst] at hs
        exact Option.noConfusion hs
      | some prs1 =>
        obtain ⟨pr, s1⟩ := prs1
        simp only [hst, Option.some.injEq] at hs
        subst hs
        obtain ⟨toks, htoks, hlen, hinputs, _hjoin, _hlen2, _hlast⟩ := ih sp hsp
        obtain ⟨c, hc, hcy, _hcache, _hsamp⟩ :=
          genStep_inv e m cutoff draw sp pr s1 hst
        have hs' : genStates e m cutoff draw prompt (n + 1) = some s1 := by
          simp only [genStates, hsp, hst]
        refine ⟨toks ++ pr.2, ?_, ?_, ?_, ?_, ?_, ?_⟩
        · simp only [sampledTokens, hsp, hst, htoks]
          rfl
        · rw [List.length_append, hlen, hc]
          rfl
        · have hunf : modelInputs e m cutoff draw prompt (n + 1) =
              (modelInputs e m cutoff draw prompt n).map (fun ins => ins ++ [sp.y]) := by
            simp only [modelInputs, hsp]
          have hm : (modelInputs e m cutoff draw prompt n).map (fun ins => ins ++ [sp.y]) =
              some (prompt :: toks.map (fun t => [t])) := by
            rw [← hunf, hinputs]
          simp only [modelInputs, hs', hsp, hm, hcy, hc, Option.map_some',
            List.map_append]
          rfl
        · simp [join_map_singleton]
        · have hone : pr.2.length = 1 := by rw [hc]; rfl
          simp only [List.length_append, hlen, hone]
          omega
        · refine Or.inr ⟨c, ?_, hcy⟩
          rw [hc, List.getLast?_concat]

/-- Claim C3 witness. -- The amended invariant at a concrete run: stub model,
prompt `[5, 6]`, two steps. -/
theorem generation_inputs_prompt_then_singletons_witness :
    ∃ toks, sampledTokens expQ mA 0 dZero [5, 6] 2 = some toks ∧
      toks.length = 2 ∧
      modelInputs expQ mA 0 dZero [5, 6] (2 + 1) =
        some ([5, 6] :: toks.map (fun t => [t])) ∧
      ([5, 6] :: toks.map (fun t => [t])).join = [5, 6] ++ toks ∧
      (([5, 6] : List ℕ) ++ toks).length = ([5, 6] : List ℕ).length + (2 + 1) - 1 ∧
      ((2 = 0 ∧ (⟨[0], some ()⟩ : GenState Unit).y = [5, 6]) ∨
        ∃ c, toks.getLast? = some c ∧ (⟨[0], some ()⟩ : GenState Unit).y = [c]) :=
  generation_inputs_prompt_then_singletons expQ mA 0 dZero [5, 6] 2
    ⟨[0], some ()⟩ (by simp only [genStates, genStep_mA_run])

/-- The two exception kinds `load` documents and raises:
`FileNotFoundError` (config or safetensors missing) and `ValueError`
(unsupported `model_type`), distinguished by their messages. -/
inductive PyExc where
  | fileNotFoundError (msg : String)
  | valueError (msg : String)
deriving DecidableEq

/-- The two architecture modules of `MODEL_MAPPING`'s codomain
(`from .models import llama, phi2`). -/
inductive Arch where
  | llama
  | phi2
deriving DecidableEq

/-- The table `MODEL_MAPPING`: llama and mistral dispatch to the llama
module, phi to phi2. -/
def MODEL_MAPPING : List (String × Arch) :=
  [("llama", .llama), ("mistral", .llama), ("phi", .phi2)]

/-- The fields of `config.json` that `load` consumes: the `model_type`
tag and the optional `quantization` table (payload abstracted). -/
structure LoadConfig where
  model_type : String
  quantization : Option Unit

/-- The resolved local model directory `load` operates on (after
`get_model_path`): `none` for `configFile` means `open(config.json)`
raises `FileNotFoundError`; `weightFiles` is the result of
`glob("*.safetensors")`. -/
structure ModelDir where
  path : String
  configFile : Option LoadConfig
  weightFiles : List String

/-- Embeds `_get_classes(config)`: dispatch on `config["model_type"]`
over `MODEL_MAPPING`, raising
`ValueError("Model type ... not supported.")` for unknown tags. -/
def _get_classes (config : LoadConfig) : Except PyExc Arch :=
  match MODEL_MAPPING.lookup config.model_type with
  | none =>
    .error (.valueError ("Model type " ++ config.model_type ++ " not supported."))
  | some arch => .ok arch

/-- What a successful `load` produces, abstracted: the dispatched
architecture and whether the quantization transform was applied. -/
structure Loaded where
  arch : Arch
  quantized : Bool
deriving DecidableEq

/-- Embeds `load(path_or_hf_repo)` on the resolved directory, in source
order: open `config.json` (re-raising `FileNotFoundError` if absent),
glob `*.safetensors` (raising `FileNotFoundError` if none), dispatch via
`_get_classes` (raising `ValueError` for an unknown tag), then build the
model, quantizing when the config asks for it. -/
def load (d : ModelDir) : Except PyExc Loaded :=
  match d.configFile with
  | none => .error (.fileNotFoundError ("Config file not found in " ++ d.path))
  | some config =>
    if d.weightFiles.isEmpty then
      .error (.fileNotFoundError ("No safetensors found in " ++ d.path))
    else
      match _get_classes config with
      | .error exc => .error exc
      | .ok arch => .ok ⟨arch, config.quantization.isSome⟩

/-- Claim C10. -- The loader's three failure modes, each surfaced as a
distinct named error exactly when its condition holds, with no retry
(the result is a pure function of the directory): missing config file →
`FileNotFoundError`; config present but no safetensors →
`FileNotFoundError` (different message); config and weights present but
`model_type` outside `MODEL_MAPPING` → `ValueError`; otherwise success
with the dispatched architecture. -/
theorem load_error_taxonomy (d : ModelDir) :
    (d.configFile = none →
      load d = .error (.fileNotFoundError ("Config file not found in " ++ d.path))) ∧
    (∀ c, d.configFile = some c → d.weightFiles = [] →
      load d = .error (.fileNotFoundError ("No safetensors found in " ++ d.path))) ∧
    (∀ c, d.configFile = some c → d.weightFiles ≠ [] →
      MODEL_MAPPING.lookup c.model_type = none →
      load d = .error (.valueError ("Model type " ++ c.model_type ++ " not supported."))) ∧
    (∀ c a, d.configFile = some c → d.weightFiles ≠ [] →
      MODEL_MAPPING.lookup c.model_type = some a →
      load d = .ok ⟨a, c.quantization.isSome⟩) := by
  refine ⟨?_, ?_, ?_, ?_⟩
  · intro h
    rw [load, h]
  · intro c hc hw
    rw [load, hc]
    simp only [hw, List.isEmpty_nil, if_true]
  · intro c hc hw hm
    simp only [load, hc]
    rw [if_neg (by simpa using hw)]
    simp only [_get_classes, hm]
  · intro c a hc hw hm
    simp only [load, hc]
    rw [if_neg (by simpa using hw)]
    simp only [_get_classes, hm]

/-- Claim C10 witness. -- A directory with no `config.json` fails with the
config `FileNotFoundError`. -/
theorem load_error_taxonomy_witness :
    load ⟨"m", none, []⟩ =
      .error (.fileNotFoundError ("Config file not found in " ++ "m")) :=
  (load_error_taxonomy ⟨"m", none, []⟩).1 rfl
